import Mathlib

/-!
Shallow embedding of the Plant-ChatBot conversational retrieval pipeline:
`ragbase/chain.py` (context formatting, chain composition, event streaming),
`ragbase/session_history.py` (the in-memory session store with expiry), and
`ragbase/retriever.py` (retriever construction with optional best-effort
stages).  The external collaborators (vector retriever, language model) are
parameters, following the external-interface contracts of the design.
-/

namespace PlantChatBot

/-- A retrieved document: `langchain_core.documents.Document`, of which the
pipeline uses only `page_content`. -/
structure Document where
  page_content : String
deriving Repr, DecidableEq

/-- The character class removed by `re.sub(r'[{}\[\]]', '', content)` in
`format_documents` (chain.py line 32): curly braces and square brackets. -/
def isBracketChar (c : Char) : Bool :=
  c == '\x7b' || c == '\x7d' || c == '[' || c == ']'

/-- `re.sub(r'[{}\[\]]', '', content)`: delete every occurrence of the four
structural characters from the string. -/
def stripBrackets (s : String) : String :=
  ⟨s.data.filter (fun c => !isBracketChar c)⟩

/-- Python `sep.join(texts)`: empty string on the empty list, otherwise the
elements interleaved with the separator. -/
def pyJoin (sep : String) : List String → String
  | [] => ""
  | [x] => x
  | x :: y :: xs => x ++ sep ++ pyJoin sep (y :: xs)

/-- `format_documents` (chain.py lines 28-35): for each document append the
stripped, trimmed page content and the `---` delimiter to `texts`, then join
with newlines. -/
def format_documents (documents : List Document) : String :=
  pyJoin "\n" (documents.flatMap (fun doc => [stripBrackets doc.page_content.trim, "---"]))

theorem string_data_append (a b : String) : (a ++ b).data = a.data ++ b.data :=
  String.data_append a b

theorem string_append_assoc (a b c : String) : a ++ b ++ c = a ++ (b ++ c) := by
  apply String.ext
  simp [string_data_append]

theorem pyJoin_append (sep : String) (a b : List String) (ha : a ≠ []) (hb : b ≠ []) :
    pyJoin sep (a ++ b) = pyJoin sep a ++ sep ++ pyJoin sep b := by
  induction a with
  | nil => exact absurd rfl ha
  | cons x xs ih =>
    cases xs with
    | nil =>
      cases b with
      | nil => exact absurd rfl hb
      | cons y ys => simp [pyJoin]
    | cons z zs =>
      have h := ih (by simp)
      simp only [List.cons_append] at h ⊢
      rw [pyJoin, pyJoin]
      rw [h]
      simp only [string_append_assoc]

theorem mem_pyJoin {c : Char} (sep : String) (l : List String)
    (h : c ∈ (pyJoin sep l).data) : c ∈ sep.data ∨ ∃ s ∈ l, c ∈ s.data := by
  induction l with
  | nil => simp [pyJoin] at h
  | cons x xs ih =>
    cases xs with
    | nil => exact Or.inr ⟨x, by simp, h⟩
    | cons y ys =>
      rw [pyJoin, string_data_append, string_data_append] at h
      rcases List.mem_append.mp h with h1 | h2
      · rcases List.mem_append.mp h1 with hx | hsep
        · exact Or.inr ⟨x, by simp, hx⟩
        · exact Or.inl hsep
      · rcases ih h2 with hsep | ⟨s, hs, hcs⟩
        · exact Or.inl hsep
        · exact Or.inr ⟨s, List.mem_cons_of_mem _ hs, hcs⟩

theorem stripBrackets_no_bracket {c : Char} (s : String)
    (h : c ∈ (stripBrackets s).data) : isBracketChar c = false := by
  simp only [stripBrackets] at h
  have := List.of_mem_filter h
  simpa using this

/-! ## Session store (`ragbase/session_history.py`)

The `SessionManager` keeps `self.sessions`, a dict mapping session id to
a record `{'history': ChatMessageHistory(), 'created_at': ..,
'last_accessed': ..}`.  The dict is modelled as an insertion-ordered
association list (Python dicts preserve insertion order and keep keys
unique); timestamps are integer seconds, so `timedelta(hours=1)` is 3600. -/

/-- Chat message role: `ChatMessageHistory` holds human and AI messages. -/
inductive Role where
  | human
  | ai
deriving Repr, DecidableEq

/-- One message of a `ChatMessageHistory`. -/
structure Message where
  role : Role
  content : String
deriving Repr, DecidableEq

/-- One entry of `self.sessions`: the per-session record built at
session_history.py lines 18-22. -/
structure SessionData where
  history : List Message
  created_at : Int
  last_accessed : Int
deriving Repr, DecidableEq

/-- The `SessionManager` state: the `self.sessions` dict. -/
structure SessionManager where
  sessions : List (String × SessionData)
deriving Repr, DecidableEq

/-- `self.session_timeout = timedelta(hours=1)`, in seconds. -/
def session_timeout : Int := 3600

/-- Python dict indexing `self.sessions[session_id]` (first matching key;
with unique keys, the only one). -/
def dictLookup (m : List (String × SessionData)) (k : String) : Option SessionData :=
  (m.find? (fun p => p.1 == k)).map Prod.snd

/-- Python `session_id in self.sessions`. -/
def dictContains (m : List (String × SessionData)) (k : String) : Bool :=
  m.any (fun p => p.1 == k)

/-- In-place update of the record stored under `k`
(`self.sessions[session_id]['last_accessed'] = ...` and history mutation). -/
def dictUpdate (m : List (String × SessionData)) (k : String)
    (f : SessionData → SessionData) : List (String × SessionData) :=
  m.map (fun p => if p.1 == k then (p.1, f p.2) else p)

/-- Insertion of a fresh key (`self.sessions[session_id] = {...}` with the key
absent): Python dicts append new keys at the end. -/
def dictInsert (m : List (String × SessionData)) (k : String) (v : SessionData) :
    List (String × SessionData) :=
  m ++ [(k, v)]

/-- `SessionManager._clean_expired_sessions` (lines 28-35): delete every
session whose `current_time - last_accessed > session_timeout`. -/
def _clean_expired_sessions (now : Int) (m : SessionManager) : SessionManager :=
  ⟨m.sessions.filter (fun p => !(decide (now - p.2.last_accessed > session_timeout)))⟩

/-- `SessionManager.get_session_history` (lines 10-26): sweep expired
sessions, then create the session (fresh history, `created_at` and
`last_accessed` set to now) if absent, else refresh `last_accessed`;
return the stored history. -/
def get_session_history (session_id : String) (now : Int) (m : SessionManager) :
    List Message × SessionManager :=
  let m1 := _clean_expired_sessions now m
  if dictContains m1.sessions session_id then
    let s2 := dictUpdate m1.sessions session_id (fun d => { d with last_accessed := now })
    (((dictLookup s2 session_id).map SessionData.history).getD [], ⟨s2⟩)
  else
    let s2 := dictInsert m1.sessions session_id ⟨[], now, now⟩
    (((dictLookup s2 session_id).map SessionData.history).getD [], ⟨s2⟩)

/-- The record returned by `SessionManager.get_session_info`. -/
structure SessionInfo where
  created_at : Int
  last_accessed : Int
  message_count : Nat
deriving Repr, DecidableEq

/-- `SessionManager.get_session_info` (lines 37-44): if the id is present,
return its `created_at`, `last_accessed` and `len(history.messages)`, else
`None`.  The method reads `self.sessions` and assigns nothing, so the state
component of the result is the unchanged manager. -/
def get_session_info (session_id : String) (m : SessionManager) :
    Option SessionInfo × SessionManager :=
  (if dictContains m.sessions session_id then
      (dictLookup m.sessions session_id).map
        (fun d => ⟨d.created_at, d.last_accessed, d.history.length⟩)
    else none,
   m)

/-- Appending a message through a history handle returned by
`get_session_history`: `ChatMessageHistory.add_message` mutates the object
stored in the session record, so the store seen through the manager gains the
message (used by `RunnableWithMessageHistory` after a run completes). -/
def appendMessage (session_id : String) (msg : Message) (m : SessionManager) :
    SessionManager :=
  ⟨dictUpdate m.sessions session_id (fun d => { d with history := d.history ++ [msg] })⟩

/-- The history currently stored for a session id, if present. -/
def historyOf (m : SessionManager) (session_id : String) : Option (List Message) :=
  (dictLookup m.sessions session_id).map SessionData.history

/-! ## Chain composition and event streaming (`ragbase/chain.py`)

`create_chain` composes: question ↦ retriever ↦ `format_documents` into the
`context` slot, then the chat prompt (system prompt with the context
substituted, the session's chat history, the question), then the model, all
wrapped in `RunnableWithMessageHistory` keyed by `session_id`.
`ask_question` drives `astream_events(..., include_names=["context_retriever",
"chain_answer"])` and re-yields the retriever output on `on_retriever_end`
and each streamed chunk's content on `on_chain_stream`.

The retriever and the language model are external collaborators and are
parameters (`retriever : String → List Document`,
`llm : Prompt → List String`, the model's answer as its stream of chunks).
The framework event feed for this fixed composition is `rawTrace`: the
named retriever run ends (with its output) before the first streamed answer
chunk, because the formatted context is an input of the prompt that the model
streams from; the wrapper then appends the input message and the aggregated
output message (the concatenation of the streamed chunks) to the session
history obtained from `get_session_history`. -/

/-- The events of `astream_events` that survive the
`include_names=["context_retriever", "chain_answer"]` filter. -/
inductive RawEvent where
  | on_chain_start
  | on_retriever_start (query : String)
  | on_retriever_end (output : List Document)
  | on_chain_stream (chunk : String)
  | on_chain_end
deriving Repr, DecidableEq

/-- What `ask_question` yields: either the retriever's document list or an
answer-chunk string (`Union[str, List[Document]]`). -/
inductive AskEvent where
  | docs (output : List Document)
  | chunk (text : String)
deriving Repr, DecidableEq

/-- `AskEvent.docs`-discriminator. -/
def AskEvent.isDocs : AskEvent → Bool
  | .docs _ => true
  | .chunk _ => false

/-- `AskEvent.chunk`-discriminator (Python: `isinstance(event, str)`). -/
def AskEvent.isChunk : AskEvent → Bool
  | .docs _ => false
  | .chunk _ => true

/-- The text of a chunk event, if any. -/
def chunkText : AskEvent → Option String
  | .docs _ => none
  | .chunk s => some s

/-- Concatenation of the yielded chunk strings in yield order (what the HTTP
layer computes with `"".join(response_chunks)`). -/
def chunkConcat (evs : List AskEvent) : String :=
  String.join (evs.filterMap chunkText)

/-- The loop body of `ask_question` (chain.py lines 69-81): yield the
retriever output on `on_retriever_end`, the chunk content on
`on_chain_stream`, and nothing on any other event. -/
def processEvents : List RawEvent → List AskEvent
  | [] => []
  | .on_retriever_end out :: rest => .docs out :: processEvents rest
  | .on_chain_stream c :: rest => .chunk c :: processEvents rest
  | .on_chain_start :: rest => processEvents rest
  | .on_retriever_start _ :: rest => processEvents rest
  | .on_chain_end :: rest => processEvents rest

/-- The prompt assembled by `ChatPromptTemplate.from_messages` (chain.py
lines 38-44): system message, chat-history placeholder, human question. -/
structure Prompt where
  system : String
  chat_history : List Message
  question : String
deriving Repr, DecidableEq

/-- The `SYSTEM_PROMPT` template of chain.py lines 16-26 with the formatted
context substituted for its single placeholder. -/
def SYSTEM_PROMPT (context : String) : String :=
  "\nYou are a helpful plant shop assistant. Use the provided context to answer customer questions about plants.\nWhen answering questions about prices, quantities, or other numeric values, be sure to state the exact number from the context.\nIf a question asks about a specific number (price, quantity, rating, etc.), provide the precise value.\nIf you cannot find the answer in the context, simply say that you don't have that information.\n\nContext:\n"
    ++ context
    ++ "\n\nAlways format prices with the $ symbol and be precise with numbers.\n"

/-- Prompt assembly: system instructions with context, prior turns, question. -/
def buildPrompt (context : String) (chat_history : List Message) (question : String) :
    Prompt :=
  ⟨SYSTEM_PROMPT context, chat_history, question⟩

/-- The framework event feed seen by the loop in `ask_question` for a
successful run of the chain built by `create_chain`: the outer chain starts,
the named retriever runs and ends with its documents, then each chunk the
model streams is an `on_chain_stream` event, then the chain ends. -/
def rawTrace (question : String) (docs : List Document) (chunks : List String) :
    List RawEvent :=
  RawEvent.on_chain_start :: RawEvent.on_retriever_start question
    :: RawEvent.on_retriever_end docs
    :: (chunks.map RawEvent.on_chain_stream ++ [RawEvent.on_chain_end])

/-- The try/except of `ask_question` (chain.py lines 68-83) over one run of
the underlying stream: the run yields a list of framework events and either
completes (`none`) or raises with a message (`some msg`), in which case the
loop's yields so far are followed by the single error chunk
`"Error processing question: " ++ msg` and the generator ends. -/
def ask_question_events (outcome : List RawEvent × Option String) : List AskEvent :=
  match outcome with
  | (evs, none) => processEvents evs
  | (evs, some msg) => processEvents evs ++ [.chunk ("Error processing question: " ++ msg)]

/-- A successful `ask_question(chain, question, session_id)` against the chain
built by `create_chain`: resolve the session history, retrieve, format the
context, stream the model's chunks, and on completion append the human
question and the aggregated AI answer to the session history, in that
order.  Returns the yielded events and the session store after the call. -/
def ask_question (retriever : String → List Document) (llm : Prompt → List String)
    (question session_id : String) (now : Int) (m : SessionManager) :
    List AskEvent × SessionManager :=
  let res := get_session_history session_id now m
  let docs := retriever question
  let context := format_documents docs
  let chunks := llm (buildPrompt context res.1 question)
  let answer := String.join chunks
  let m2 := appendMessage session_id ⟨.ai, answer⟩
              (appendMessage session_id ⟨.human, question⟩ res.2)
  (ask_question_events (rawTrace question docs chunks, none), m2)

/-! ## Retriever construction (`ragbase/retriever.py`)

`create_retriever` builds a similarity retriever over the vector store and
wraps it in up to two optional `ContextualCompressionRetriever` stages
(reranker, LLM chain filter).  Each optional stage is constructed inside its
own try/except: on failure a warning is printed and the retriever of the
prior stage is kept.  The outer try/except turns any remaining failure
(vector-store creation) into a `RetrieverError`.  Whether each external
constructor succeeds is a parameter. -/

/-- The optional compression stages. -/
inductive Compressor where
  | reranker
  | chainFilter
deriving Repr, DecidableEq

/-- The shape of the retriever returned by `create_retriever`. -/
inductive RetrieverSpec where
  | vectorstore (topK : Nat)
  | compression (comp : Compressor) (base : RetrieverSpec)
deriving Repr, DecidableEq

/-- `Config.Retriever.TOP_K` default. -/
def TOP_K : Nat := 5

/-- `create_retriever` (retriever.py lines 16-55).  `vectorStoreOk` is whether
vector-store resolution succeeds (else the outer except raises
`RetrieverError`); `rerankerOk` / `chainFilterOk` are whether the optional
stage constructors succeed.  Returns the retriever and the warnings printed. -/
def create_retriever (useReranker useChainFilter : Bool)
    (vectorStoreOk rerankerOk chainFilterOk : Bool) :
    Except String (RetrieverSpec × List String) :=
  if vectorStoreOk = false then
    .error "Failed to create retriever"
  else
    let r0 := RetrieverSpec.vectorstore TOP_K
    let p1 : RetrieverSpec × List String :=
      if useReranker then
        if rerankerOk then (.compression .reranker r0, [])
        else (r0, ["Warning: Reranker initialization failed"])
      else (r0, [])
    let p2 : RetrieverSpec × List String :=
      if useChainFilter then
        if chainFilterOk then (.compression .chainFilter p1.1, p1.2)
        else (p1.1, p1.2 ++ ["Warning: Chain filter initialization failed"])
      else p1
    .ok p2

/-- Running a constructed retriever: the base similarity search is the
external vector store (`search q k` returns the top-k documents) and each
compression stage transforms the documents of its base retriever. -/
def runRetriever (search : String → Nat → List Document)
    (applyComp : Compressor → List Document → List Document) :
    RetrieverSpec → String → List Document
  | .vectorstore k, q => search q k
  | .compression c rs, q => applyComp c (runRetriever search applyComp rs q)

/-! ## Dictionary lemmas -/

theorem dictLookup_cons_pos (p : String × SessionData) (ps : List (String × SessionData))
    (k : String) (h : (p.1 == k) = true) : dictLookup (p :: ps) k = some p.2 := by
  unfold dictLookup
  rw [List.find?_cons_of_pos _ (by simpa using h)]
  rfl

theorem dictLookup_cons_neg (p : String × SessionData) (ps : List (String × SessionData))
    (k : String) (h : (p.1 == k) = false) : dictLookup (p :: ps) k = dictLookup ps k := by
  unfold dictLookup
  rw [List.find?_cons_of_neg _ (by simp [h])]

theorem dictUpdate_cons_pos (p : String × SessionData) (ps : List (String × SessionData))
    (k : String) (f : SessionData → SessionData) (h : (p.1 == k) = true) :
    dictUpdate (p :: ps) k f = (p.1, f p.2) :: dictUpdate ps k f := by
  have he : p.1 = k := by simpa using h
  simp [dictUpdate, he]

theorem dictUpdate_cons_neg (p : String × SessionData) (ps : List (String × SessionData))
    (k : String) (f : SessionData → SessionData) (h : (p.1 == k) = false) :
    dictUpdate (p :: ps) k f = p :: dictUpdate ps k f := by
  have he : ¬ p.1 = k := by simpa using h
  simp [dictUpdate, he]

theorem dictContains_cons (p : String × SessionData) (ps : List (String × SessionData))
    (k : String) : dictContains (p :: ps) k = ((p.1 == k) || dictContains ps k) := by
  simp [dictContains]

theorem dictLookup_update_self (m : List (String × SessionData)) (k : String)
    (f : SessionData → SessionData) :
    dictLookup (dictUpdate m k f) k = (dictLookup m k).map f := by
  induction m with
  | nil => rfl
  | cons p ps ih =>
    cases hb : (p.1 == k) with
    | true =>
      rw [dictUpdate_cons_pos _ _ _ _ hb, dictLookup_cons_pos _ _ _ hb,
        dictLookup_cons_pos _ _ _ (by simpa using hb)]
      rfl
    | false =>
      rw [dictUpdate_cons_neg _ _ _ _ hb, dictLookup_cons_neg _ _ _ hb,
        dictLookup_cons_neg _ _ _ hb]
      exact ih

theorem dictLookup_update_ne (m : List (String × SessionData)) (k k' : String)
    (f : SessionData → SessionData) (h : k' ≠ k) :
    dictLookup (dictUpdate m k f) k' = dictLookup m k' := by
  induction m with
  | nil => rfl
  | cons p ps ih =>
    cases hb : (p.1 == k) with
    | true =>
      have hk : p.1 = k := by simpa using hb
      have hb' : (p.1 == k') = false := by
        simp only [beq_eq_false_iff_ne, ne_eq, hk]
        exact fun e => h e.symm
      rw [dictUpdate_cons_pos _ _ _ _ hb, dictLookup_cons_neg _ _ _ (by simpa using hb'),
        dictLookup_cons_neg _ _ _ hb']
      exact ih
    | false =>
      cases hb' : (p.1 == k') with
      | true =>
        rw [dictUpdate_cons_neg _ _ _ _ hb, dictLookup_cons_pos _ _ _ hb',
          dictLookup_cons_pos _ _ _ hb']
      | false =>
        rw [dictUpdate_cons_neg _ _ _ _ hb, dictLookup_cons_neg _ _ _ hb',
          dictLookup_cons_neg _ _ _ hb']
        exact ih

theorem dictContains_eq_isSome (m : List (String × SessionData)) (k : String) :
    dictContains m k = (dictLookup m k).isSome := by
  induction m with
  | nil => rfl
  | cons p ps ih =>
    cases hb : (p.1 == k) with
    | true => rw [dictContains_cons, hb, dictLookup_cons_pos _ _ _ hb]; rfl
    | false =>
      rw [dictContains_cons, hb, dictLookup_cons_neg _ _ _ hb, Bool.false_or]
      exact ih

theorem dictLookup_insert_self (m : List (String × SessionData)) (k : String)
    (v : SessionData) (h : dictContains m k = false) :
    dictLookup (dictInsert m k v) k = some v := by
  induction m with
  | nil => simp [dictInsert, dictLookup, List.find?]
  | cons p ps ih =>
    rw [dictContains_cons, Bool.or_eq_false_iff] at h
    have : dictInsert (p :: ps) k v = p :: dictInsert ps k v := by simp [dictInsert]
    rw [this, dictLookup_cons_neg _ _ _ h.1]
    exact ih h.2

theorem dictLookup_insert_ne (m : List (String × SessionData)) (k k' : String)
    (v : SessionData) (h : k' ≠ k) :
    dictLookup (dictInsert m k v) k' = dictLookup m k' := by
  induction m with
  | nil =>
    have hb : (k == k') = false := by
      simp only [beq_eq_false_iff_ne, ne_eq]
      exact fun e => h e.symm
    show dictLookup [(k, v)] k' = dictLookup [] k'
    rw [dictLookup_cons_neg _ _ _ hb]
  | cons p ps ih =>
    have hstep : dictInsert (p :: ps) k v = p :: dictInsert ps k v := by simp [dictInsert]
    cases hb' : (p.1 == k') with
    | true => rw [hstep, dictLookup_cons_pos _ _ _ hb', dictLookup_cons_pos _ _ _ hb']
    | false =>
      rw [hstep, dictLookup_cons_neg _ _ _ hb', dictLookup_cons_neg _ _ _ hb']
      exact ih

theorem dictLookup_filter_of_pred (m : List (String × SessionData)) (k : String)
    (d : SessionData) (p : String × SessionData → Bool)
    (hl : dictLookup m k = some d) (hp : p (k, d) = true) :
    dictLookup (m.filter p) k = some d := by
  induction m with
  | nil => simp [dictLookup, List.find?] at hl
  | cons q qs ih =>
    cases hb : (q.1 == k) with
    | true =>
      rw [dictLookup_cons_pos _ _ _ hb] at hl
      have hq : q = (k, d) := by
        cases q with
        | mk a b =>
          have h1 : a = k := by simpa using hb
          have h2 : b = d := by simpa using hl
          rw [h1, h2]
      subst hq
      rw [List.filter_cons_of_pos (by simpa using hp)]
      exact dictLookup_cons_pos _ _ _ (by simp)
    | false =>
      rw [dictLookup_cons_neg _ _ _ hb] at hl
      cases hq : p q with
      | true =>
        rw [List.filter_cons_of_pos (by simp [hq])]
        rw [dictLookup_cons_neg _ _ _ hb]
        exact ih hl
      | false =>
        rw [List.filter_cons_of_neg (by simp [hq])]
        exact ih hl

theorem dictContains_filter_false (m : List (String × SessionData)) (k : String)
    (p : String × SessionData → Bool) (h : dictContains m k = false) :
    dictContains (m.filter p) k = false := by
  induction m with
  | nil => rfl
  | cons q qs ih =>
    rw [dictContains_cons, Bool.or_eq_false_iff] at h
    cases hq : p q with
    | true =>
      rw [List.filter_cons_of_pos (by simp [hq]), dictContains_cons, h.1, Bool.false_or]
      exact ih h.2
    | false =>
      rw [List.filter_cons_of_neg (by simp [hq])]
      exact ih h.2

theorem mem_of_dictLookup (m : List (String × SessionData)) (k : String)
    (d : SessionData) (h : dictLookup m k = some d) : (k, d) ∈ m := by
  induction m with
  | nil => simp [dictLookup, List.find?] at h
  | cons q qs ih =>
    cases hb : (q.1 == k) with
    | true =>
      rw [dictLookup_cons_pos _ _ _ hb] at h
      have hq : q = (k, d) := by
        cases q with
        | mk a b =>
          have h1 : a = k := by simpa using hb
          have h2 : b = d := by simpa using h
          rw [h1, h2]
      rw [hq]
      exact List.mem_cons_self _ _
    | false =>
      rw [dictLookup_cons_neg _ _ _ hb] at h
      exact List.mem_cons_of_mem _ (ih h)

theorem dictContains_filter_stale_false (m : List (String × SessionData)) (k : String)
    (d : SessionData) (p : String × SessionData → Bool)
    (hnd : (m.map Prod.fst).Nodup) (hl : dictLookup m k = some d)
    (hp : p (k, d) = false) :
    dictContains (m.filter p) k = false := by
  induction m with
  | nil => rfl
  | cons q qs ih =>
    rw [List.map_cons, List.nodup_cons] at hnd
    cases hb : (q.1 == k) with
    | true =>
      rw [dictLookup_cons_pos _ _ _ hb] at hl
      have hq : q = (k, d) := by
        cases q with
        | mk a b =>
          have h1 : a = k := by simpa using hb
          have h2 : b = d := by simpa using hl
          rw [h1, h2]
      subst hq
      rw [List.filter_cons_of_neg (by simp [hp])]
      have habs : dictContains qs k = false := by
        rw [dictContains_eq_isSome]
        cases hcase : dictLookup qs k with
        | none => rfl
        | some d' =>
          exact absurd (List.mem_map.mpr ⟨(k, d'), mem_of_dictLookup _ _ _ hcase, rfl⟩)
            hnd.1
      exact dictContains_filter_false qs k p habs
    | false =>
      rw [dictLookup_cons_neg _ _ _ hb] at hl
      cases hq : p q with
      | true =>
        rw [List.filter_cons_of_pos (by simp [hq]), dictContains_cons, hb, Bool.false_or]
        exact ih hnd.2 hl
      | false =>
        rw [List.filter_cons_of_neg (by simp [hq])]
        exact ih hnd.2 hl

/-! ## Session-store helper lemmas -/

theorem get_session_history_lookup_self (sid : String) (now : Int) (m : SessionManager) :
    ∃ c, dictLookup ((get_session_history sid now m).2).sessions sid
      = some ⟨(get_session_history sid now m).1, c, now⟩ := by
  cases hc : dictContains (_clean_expired_sessions now m).sessions sid with
  | true =>
    obtain ⟨d, hd⟩ : ∃ d, dictLookup (_clean_expired_sessions now m).sessions sid = some d := by
      have h := dictContains_eq_isSome (_clean_expired_sessions now m).sessions sid
      rw [hc] at h
      exact Option.isSome_iff_exists.mp h.symm
    refine ⟨d.created_at, ?_⟩
    simp only [get_session_history, hc, if_true]
    rw [dictLookup_update_self, hd]
    rfl
  | false =>
    refine ⟨now, ?_⟩
    simp only [get_session_history, hc, Bool.false_eq_true, if_false]
    rw [dictLookup_insert_self _ _ _ hc]
    rfl

theorem dictLookup_appendMessage_self (sid : String) (msg : Message) (m : SessionManager) :
    dictLookup (appendMessage sid msg m).sessions sid
      = (dictLookup m.sessions sid).map
          (fun d => { d with history := d.history ++ [msg] }) := by
  show dictLookup (dictUpdate m.sessions sid (fun d => { d with history := d.history ++ [msg] })) sid
    = (dictLookup m.sessions sid).map (fun d => { d with history := d.history ++ [msg] })
  exact dictLookup_update_self m.sessions sid _

theorem dictLookup_appendMessage_ne (sid sid' : String) (msg : Message)
    (m : SessionManager) (h : sid' ≠ sid) :
    dictLookup (appendMessage sid msg m).sessions sid' = dictLookup m.sessions sid' := by
  show dictLookup (dictUpdate m.sessions sid (fun d => { d with history := d.history ++ [msg] })) sid'
    = dictLookup m.sessions sid'
  exact dictLookup_update_ne m.sessions sid sid' _ h

/-! ## Event-stream helper lemmas -/

theorem processEvents_chunks (chunks : List String) :
    processEvents (chunks.map RawEvent.on_chain_stream ++ [RawEvent.on_chain_end])
      = chunks.map AskEvent.chunk := by
  induction chunks with
  | nil => rfl
  | cons c cs ih =>
    simp only [List.map_cons, List.cons_append, processEvents]
    exact congrArg (AskEvent.chunk c :: ·) ih

theorem processEvents_rawTrace (q : String) (docs : List Document) (chunks : List String) :
    processEvents (rawTrace q docs chunks)
      = AskEvent.docs docs :: chunks.map AskEvent.chunk := by
  simp only [rawTrace, processEvents, processEvents_chunks]

theorem chunkConcat_shape (docs : List Document) (chunks : List String) :
    chunkConcat (AskEvent.docs docs :: chunks.map AskEvent.chunk) = String.join chunks := by
  simp only [chunkConcat, List.filterMap_cons, chunkText, List.filterMap_map]
  have h : (fun s => chunkText (AskEvent.chunk s)) = fun s => some s := rfl
  rw [show chunkText ∘ AskEvent.chunk = some from rfl, List.filterMap_some]

theorem ask_question_events_eq (r : String → List Document) (l : Prompt → List String)
    (q sid : String) (now : Int) (m : SessionManager) :
    (ask_question r l q sid now m).1
      = AskEvent.docs (r q)
        :: (l (buildPrompt (format_documents (r q))
              (get_session_history sid now m).1 q)).map AskEvent.chunk := by
  simp only [ask_question, ask_question_events, processEvents_rawTrace]

theorem ask_question_store_eq (r : String → List Document) (l : Prompt → List String)
    (q sid : String) (now : Int) (m : SessionManager) :
    (ask_question r l q sid now m).2
      = appendMessage sid
          ⟨.ai, String.join (l (buildPrompt (format_documents (r q))
                  (get_session_history sid now m).1 q))⟩
          (appendMessage sid ⟨.human, q⟩ (get_session_history sid now m).2) := rfl

theorem ask_question_lookup_self (r : String → List Document) (l : Prompt → List String)
    (q sid : String) (now : Int) (m : SessionManager) :
    ∃ c, dictLookup ((ask_question r l q sid now m).2).sessions sid
      = some ⟨(get_session_history sid now m).1
            ++ [⟨.human, q⟩, ⟨.ai, chunkConcat (ask_question r l q sid now m).1⟩], c, now⟩ := by
  obtain ⟨c, hc⟩ := get_session_history_lookup_self sid now m
  refine ⟨c, ?_⟩
  rw [ask_question_store_eq, dictLookup_appendMessage_self, dictLookup_appendMessage_self,
    hc, ask_question_events_eq, chunkConcat_shape]
  simp

theorem dictContains_update (m : List (String × SessionData)) (k k' : String)
    (f : SessionData → SessionData) :
    dictContains (dictUpdate m k f) k' = dictContains m k' := by
  by_cases h : k' = k
  · subst h
    rw [dictContains_eq_isSome, dictContains_eq_isSome, dictLookup_update_self]
    cases dictLookup m k' <;> rfl
  · rw [dictContains_eq_isSome, dictContains_eq_isSome, dictLookup_update_ne _ _ _ _ h]

theorem dictContains_insert_ne (m : List (String × SessionData)) (k k' : String)
    (v : SessionData) (h : k' ≠ k) :
    dictContains (dictInsert m k v) k' = dictContains m k' := by
  rw [dictContains_eq_isSome, dictContains_eq_isSome, dictLookup_insert_ne _ _ _ _ h]

theorem clean_sessions_eq (now : Int) (m : SessionManager) :
    (_clean_expired_sessions now m).sessions
      = m.sessions.filter (fun p => !(decide (now - p.2.last_accessed > session_timeout))) :=
  rfl

theorem get_session_history_fresh (sid : String) (now : Int) (m : SessionManager)
    (h : dictContains m.sessions sid = false) :
    (get_session_history sid now m).1 = [] := by
  have hc : dictContains (_clean_expired_sessions now m).sessions sid = false := by
    rw [clean_sessions_eq]
    exact dictContains_filter_false _ _ _ h
  simp only [get_session_history, hc, Bool.false_eq_true, if_false]
  rw [dictLookup_insert_self _ _ _ hc]
  rfl

theorem get_session_history_live (sid : String) (now : Int) (m : SessionManager)
    (d : SessionData) (hl : dictLookup m.sessions sid = some d)
    (hlive : now - d.last_accessed ≤ session_timeout) :
    (get_session_history sid now m).1 = d.history := by
  have hsurv : dictLookup (_clean_expired_sessions now m).sessions sid = some d := by
    rw [clean_sessions_eq]
    refine dictLookup_filter_of_pred _ _ _ _ hl ?_
    simp only [Bool.not_eq_true', decide_eq_false_iff_not, not_lt]
    exact hlive
  have hc : dictContains (_clean_expired_sessions now m).sessions sid = true := by
    rw [dictContains_eq_isSome, hsurv]
    rfl
  simp only [get_session_history, hc, if_true]
  rw [dictLookup_update_self, hsurv]
  rfl

theorem countP_isDocs_map_chunk (chunks : List String) :
    (chunks.map AskEvent.chunk).countP AskEvent.isDocs = 0 := by
  induction chunks with
  | nil => rfl
  | cons c cs ih => simp [List.countP_cons, AskEvent.isDocs, ih]

theorem countP_isDocs_docs_chunks (ds : List Document) (chunks : List String) :
    (AskEvent.docs ds :: chunks.map AskEvent.chunk).countP AskEvent.isDocs = 1 := by
  simp [List.countP_cons, AskEvent.isDocs, countP_isDocs_map_chunk]

theorem isDocs_index_eq_zero (ds : List Document) (chunks : List String) (i : Nat)
    (hi : i < (AskEvent.docs ds :: chunks.map AskEvent.chunk).length)
    (h : ((AskEvent.docs ds :: chunks.map AskEvent.chunk).get ⟨i, hi⟩).isDocs = true) :
    i = 0 := by
  cases i with
  | zero => rfl
  | succ n =>
    exfalso
    rw [List.get_cons_succ] at h
    have hn : n < chunks.length := by
      have := hi
      simp only [List.length_cons, List.length_map] at this
      omega
    rw [List.get_map] at h
    simp [AskEvent.isDocs] at h

theorem isChunk_index_pos (ds : List Document) (chunks : List String) (j : Nat)
    (hj : j < (AskEvent.docs ds :: chunks.map AskEvent.chunk).length)
    (h : ((AskEvent.docs ds :: chunks.map AskEvent.chunk).get ⟨j, hj⟩).isChunk = true) :
    0 < j := by
  cases j with
  | zero => simp [List.get, AskEvent.isChunk] at h
  | succ n => exact Nat.succ_pos n

/-! ## Claim theorems -/

/-- C5: `format_documents` is pure and satisfies the context-formatter
contract: the empty passage list formats to the empty string; no curly brace
or square bracket ever appears in the output, whatever the passage texts
contain; a single passage formats to its cleaned text followed by the fixed
`---` delimiter line; and formatting is compositional over concatenation of
passage lists, so the relative order of the passages' texts is preserved and
consecutive passages are separated by the fixed delimiter. -/
theorem c5_format_documents_contract :
    format_documents [] = ""
    ∧ (∀ (docs : List Document) (c : Char), c ∈ (format_documents docs).data →
        c ≠ '\x7b' ∧ c ≠ '\x7d' ∧ c ≠ '[' ∧ c ≠ ']')
    ∧ (∀ d : Document,
        format_documents [d] = stripBrackets d.page_content.trim ++ "\n" ++ "---")
    ∧ (∀ l1 l2 : List Document, l1 ≠ [] → l2 ≠ [] →
        format_documents (l1 ++ l2)
          = format_documents l1 ++ "\n" ++ format_documents l2) := by
  refine ⟨rfl, ?_, ?_, ?_⟩
  · intro docs c hc
    unfold format_documents at hc
    rcases mem_pyJoin _ _ hc with hsep | ⟨s, hs, hcs⟩
    · have : c = '\n' := by simpa using hsep
      subst this
      refine ⟨by decide, by decide, by decide, by decide⟩
    · rcases List.mem_flatMap.mp hs with ⟨d, _, hd⟩
      rcases List.mem_cons.mp hd with he | ht
      · subst he
        have hb := stripBrackets_no_bracket _ hcs
        simp only [isBracketChar, Bool.or_eq_false_iff, beq_eq_false_iff_ne, ne_eq] at hb
        exact ⟨hb.1.1.1, hb.1.1.2, hb.1.2, hb.2⟩
      · have : s = "---" := by simpa using ht
        subst this
        have : c = '-' := by
          have h3 : ("---" : String).data = ['-', '-', '-'] := rfl
          rw [h3] at hcs
          simpa using hcs
        subst this
        refine ⟨by decide, by decide, by decide, by decide⟩
  · intro d
    rfl
  · intro l1 l2 h1 h2
    unfold format_documents
    rw [List.flatMap_append]
    rw [pyJoin_append]
    · cases l1 with
      | nil => exact absurd rfl h1
      | cons x xs => simp [List.flatMap_cons]
    · cases l2 with
      | nil => exact absurd rfl h2
      | cons x xs => simp [List.flatMap_cons]

/-- C5 witness: the contract applied at concrete inputs. -/
theorem c5_witness :
    format_documents ([⟨"x"⟩] ++ [⟨"y"⟩])
      = format_documents [⟨"x"⟩] ++ "\n" ++ format_documents [⟨"y"⟩] :=
  c5_format_documents_contract.2.2.2 [⟨"x"⟩] [⟨"y"⟩]
    (List.cons_ne_nil _ _) (List.cons_ne_nil _ _)

/-- C9: `get_session_info` returns the `created_at`, `last_accessed` and
message count of a present session, returns `none` for an absent id, and is
read-only: the session manager after the call (session map, every session's
history, every `last_accessed`) is exactly the manager before it, and no
expiry sweep is run. -/
theorem c9_get_session_info_read_only (sid : String) (m : SessionManager) :
    (get_session_info sid m).2 = m
    ∧ (∀ d, dictLookup m.sessions sid = some d →
        (get_session_info sid m).1 = some ⟨d.created_at, d.last_accessed, d.history.length⟩)
    ∧ (dictLookup m.sessions sid = none → (get_session_info sid m).1 = none) := by
  refine ⟨rfl, ?_, ?_⟩
  · intro d hd
    simp only [get_session_info]
    rw [dictContains_eq_isSome, hd]
    simp
  · intro hd
    simp only [get_session_info]
    rw [dictContains_eq_isSome, hd]
    simp

/-- C9 witness: the info theorem applied at a concrete one-session store. -/
theorem c9_witness :
    (get_session_info "s" ⟨[("s", ⟨[⟨.human, "hi"⟩], 3, 7⟩)]⟩).1
      = some ⟨3, 7, 1⟩ :=
  (c9_get_session_info_read_only "s" ⟨[("s", ⟨[⟨.human, "hi"⟩], 3, 7⟩)]⟩).2.1
    ⟨[⟨.human, "hi"⟩], 3, 7⟩ (by decide)

/-- C2: two sequential `get_session_history` calls with the same session id
within the timeout window resolve to the same underlying history: a turn
appended through the handle returned by the first call is contained in the
history returned by the second call. -/
theorem c2_session_identity (sid : String) (t1 t2 : Int) (m : SessionManager)
    (turn : Message) (h12 : t1 ≤ t2) (hwin : t2 - t1 ≤ session_timeout) :
    (get_session_history sid t2
        (appendMessage sid turn (get_session_history sid t1 m).2)).1
      = (get_session_history sid t1 m).1 ++ [turn] := by
  obtain ⟨c, hc⟩ := get_session_history_lookup_self sid t1 m
  have h2 : dictLookup (appendMessage sid turn (get_session_history sid t1 m).2).sessions sid
      = some ⟨(get_session_history sid t1 m).1 ++ [turn], c, t1⟩ := by
    rw [dictLookup_appendMessage_self, hc]
    rfl
  exact get_session_history_live sid t2 _ _ h2 (by simpa using hwin)

/-- C2 witness: the identity theorem applied at a concrete store and times. -/
theorem c2_witness :
    (get_session_history "s" 10
        (appendMessage "s" ⟨.human, "hi"⟩ (get_session_history "s" 0 ⟨[]⟩).2)).1
      = (get_session_history "s" 0 ⟨[]⟩).1 ++ [⟨.human, "hi"⟩] :=
  c2_session_identity "s" 0 10 ⟨[]⟩ ⟨.human, "hi"⟩ (by decide) (by decide)

/-- C3: the sweep run by every access removes exactly the stale sessions:
after a `get_session_history` access at time `now`, any other session whose
`last_accessed` is strictly more than the timeout before `now` is absent from
the store, while any other session within the timeout survives with its
record unchanged. -/
theorem c3_expiry_sweep (m : SessionManager) (sid sid' : String) (now : Int)
    (d : SessionData) (hnd : (m.sessions.map Prod.fst).Nodup)
    (hne : sid' ≠ sid) (hl : dictLookup m.sessions sid' = some d) :
    (now - d.last_accessed > session_timeout →
        dictContains ((get_session_history sid now m).2).sessions sid' = false)
    ∧ (now - d.last_accessed ≤ session_timeout →
        dictLookup ((get_session_history sid now m).2).sessions sid' = some d) := by
  constructor
  · intro hstale
    have hgone : dictContains (_clean_expired_sessions now m).sessions sid' = false := by
      rw [clean_sessions_eq]
      refine dictContains_filter_stale_false _ _ d _ hnd hl ?_
      simpa using hstale
    cases hcm : dictContains (_clean_expired_sessions now m).sessions sid with
    | true =>
      simp only [get_session_history, hcm, if_true]
      rw [dictContains_update]
      exact hgone
    | false =>
      simp only [get_session_history, hcm, Bool.false_eq_true, if_false]
      rw [dictContains_insert_ne _ _ _ _ hne]
      exact hgone
  · intro hlive
    have hkeep : dictLookup (_clean_expired_sessions now m).sessions sid' = some d := by
      rw [clean_sessions_eq]
      refine dictLookup_filter_of_pred _ _ _ _ hl ?_
      simp only [Bool.not_eq_true', decide_eq_false_iff_not, not_lt]
      exact hlive
    cases hcm : dictContains (_clean_expired_sessions now m).sessions sid with
    | true =>
      simp only [get_session_history, hcm, if_true]
      rw [dictLookup_update_ne _ _ _ _ hne]
      exact hkeep
    | false =>
      simp only [get_session_history, hcm, Bool.false_eq_true, if_false]
      rw [dictLookup_insert_ne _ _ _ _ hne]
      exact hkeep

/-- C3 witness: the sweep theorem applied at a concrete two-behaviour store:
the session last accessed at time 0 is stale at time 4000 and is removed by
an access to another id. -/
theorem c3_witness :
    dictContains ((get_session_history "b" 4000 ⟨[("a", ⟨[], 0, 0⟩)]⟩).2).sessions "a"
      = false :=
  (c3_expiry_sweep ⟨[("a", ⟨[], 0, 0⟩)]⟩ "b" "a" 4000 ⟨[], 0, 0⟩
      (by decide) (by decide) (by decide)).1 (by decide)

/-- C10: after every `get_session_history` call, each session remaining in
the store was accessed within the timeout of the call's time (the sweep runs
before the lookup-or-create step), and accessing an id whose entry is stale
deletes the old entry and returns a fresh empty history whose record has
`created_at` and `last_accessed` equal to `now`. -/
theorem c10_post_access_invariant (sid : String) (now : Int) (m : SessionManager)
    (hnd : (m.sessions.map Prod.fst).Nodup) :
    (∀ sid' d, dictLookup ((get_session_history sid now m).2).sessions sid' = some d →
        now - d.last_accessed ≤ session_timeout)
    ∧ (∀ d, dictLookup m.sessions sid = some d →
        now - d.last_accessed > session_timeout →
        (get_session_history sid now m).1 = []
          ∧ dictLookup ((get_session_history sid now m).2).sessions sid
              = some ⟨[], now, now⟩) := by
  constructor
  · intro sid' d hd
    have hmem := mem_of_dictLookup _ _ _ hd
    cases hcm : dictContains (_clean_expired_sessions now m).sessions sid with
    | true =>
      simp only [get_session_history, hcm, if_true] at hmem
      rcases List.mem_map.mp hmem with ⟨q, hq, hqe⟩
      have hqf := List.mem_filter.mp (by
        rw [clean_sessions_eq] at hq
        exact hq)
      have hqlive : now - q.2.last_accessed ≤ session_timeout := by
        have := hqf.2
        simp only [Bool.not_eq_true', decide_eq_false_iff_not, not_lt] at this
        exact this
      by_cases hk : (q.1 == sid) = true
      · rw [if_pos hk] at hqe
        have : d = { q.2 with last_accessed := now } := by
          have := congrArg Prod.snd hqe
          exact this.symm
        rw [this]
        simp [session_timeout]
      · rw [if_neg hk] at hqe
        have : d = q.2 := by
          have := congrArg Prod.snd hqe
          exact this.symm
        rw [this]
        exact hqlive
    | false =>
      simp only [get_session_history, hcm, Bool.false_eq_true, if_false] at hmem
      rcases List.mem_append.mp hmem with hin | hnew
      · have hqf := List.mem_filter.mp (by
          rw [clean_sessions_eq] at hin
          exact hin)
        have := hqf.2
        simp only [Bool.not_eq_true', decide_eq_false_iff_not, not_lt] at this
        exact this
      · have : (sid', d) = (sid, ⟨[], now, now⟩) := by simpa using hnew
        have hd' : d = ⟨[], now, now⟩ := congrArg Prod.snd this
        rw [hd']
        simp [session_timeout]
  · intro d hd hstale
    have hgone : dictContains (_clean_expired_sessions now m).sessions sid = false := by
      rw [clean_sessions_eq]
      refine dictContains_filter_stale_false _ _ d _ hnd hd ?_
      simpa using hstale
    constructor
    · simp only [get_session_history, hgone, Bool.false_eq_true, if_false]
      rw [dictLookup_insert_self _ _ _ hgone]
      rfl
    · simp only [get_session_history, hgone, Bool.false_eq_true, if_false]
      exact dictLookup_insert_self _ _ _ hgone

/-- C10 witness: the invariant theorem applied at a concrete store whose only
session is stale at the access time: the access returns a fresh empty history
reset to the access time. -/
theorem c10_witness :
    (get_session_history "a" 4000 ⟨[("a", ⟨[⟨.human, "hi"⟩], 0, 0⟩)]⟩).1 = []
      ∧ dictLookup ((get_session_history "a" 4000 ⟨[("a", ⟨[⟨.human, "hi"⟩], 0, 0⟩)]⟩).2).sessions "a"
          = some ⟨[], 4000, 4000⟩ :=
  (c10_post_access_invariant "a" 4000 ⟨[("a", ⟨[⟨.human, "hi"⟩], 0, 0⟩)]⟩
      (by decide)).2 ⟨[⟨.human, "hi"⟩], 0, 0⟩ (by decide) (by decide)

/-- C1: a successful `ask_question` yields exactly one retrieved-context
event; that event precedes every answer-chunk event; and concatenating the
answer-chunk strings in yield order is exactly the full answer text appended
to the session history (the history gains the human question and that AI
answer at its end). -/
theorem c1_event_ordering_and_answer (r : String → List Document)
    (l : Prompt → List String) (q sid : String) (now : Int) (m : SessionManager) :
    ((ask_question r l q sid now m).1.countP AskEvent.isDocs = 1)
    ∧ (∀ i j (hi : i < (ask_question r l q sid now m).1.length)
          (hj : j < (ask_question r l q sid now m).1.length),
        ((ask_question r l q sid now m).1.get ⟨i, hi⟩).isDocs = true →
        ((ask_question r l q sid now m).1.get ⟨j, hj⟩).isChunk = true → i < j)
    ∧ (∃ pre c, dictLookup ((ask_question r l q sid now m).2).sessions sid
        = some ⟨pre ++ [⟨.human, q⟩,
                        ⟨.ai, chunkConcat (ask_question r l q sid now m).1⟩], c, now⟩) := by
  refine ⟨?_, ?_, ?_⟩
  · rw [ask_question_events_eq]
    exact countP_isDocs_docs_chunks _ _
  · intro i j hi hj hdi hdj
    have heq := ask_question_events_eq r l q sid now m
    rw [List.get_of_eq heq] at hdi hdj
    have hzero := isDocs_index_eq_zero _ _ i (heq ▸ hi) hdi
    have hpos := isChunk_index_pos _ _ j (heq ▸ hj) hdj
    omega
  · obtain ⟨c, hc⟩ := ask_question_lookup_self r l q sid now m
    exact ⟨(get_session_history sid now m).1, c, hc⟩

/-- C1 witness: the ordering theorem applied at a concrete retriever, model,
question and store: the context event (index 0) precedes the chunk event
(index 1), the context event is counted exactly once, and the history ends
with the concatenated answer. -/
theorem c1_witness :
    ((ask_question (fun _ => [⟨"rose"⟩]) (fun _ => ["a", "b"]) "q" "s" 0 ⟨[]⟩).1.countP
        AskEvent.isDocs = 1)
    ∧ (0 : Nat) < 1 :=
  ⟨(c1_event_ordering_and_answer (fun _ => [⟨"rose"⟩]) (fun _ => ["a", "b"]) "q" "s" 0 ⟨[]⟩).1,
   (c1_event_ordering_and_answer (fun _ => [⟨"rose"⟩]) (fun _ => ["a", "b"]) "q" "s" 0 ⟨[]⟩).2.1
     0 1 (by decide) (by decide) (by decide) (by decide)⟩

/-- C4 counterexample: the code performs no emptiness validation, so with a
retriever returning one document and a model streaming one chunk,
`ask_question` on the empty question yields two events (the document list and
the chunk), not a single error event, and the session history for the session
is mutated rather than left unchanged. -/
theorem c4_counterexample :
    ¬ (((ask_question (fun _ => [⟨"rose"⟩]) (fun _ => ["answer"]) "" "s" 0 ⟨[]⟩).1.length = 1)
        ∧ historyOf (ask_question (fun _ => [⟨"rose"⟩]) (fun _ => ["answer"]) "" "s" 0 ⟨[]⟩).2 "s"
            = historyOf ⟨[]⟩ "s") := by
  decide

/-- C4 (amended): `ask_question` performs no validation of the question: an
empty (or whitespace-only) question is processed exactly like any other — the
retriever is invoked with it, the normal event sequence (one retrieved-context
event followed by the answer chunks) is yielded, and the session history gains
the empty human turn and the assistant answer. -/
theorem c4_empty_question_processed_normally (r : String → List Document)
    (l : Prompt → List String) (sid : String) (now : Int) (m : SessionManager) :
    (ask_question r l "" sid now m).1
      = AskEvent.docs (r "")
        :: (l (buildPrompt (format_documents (r ""))
              (get_session_history sid now m).1 "")).map AskEvent.chunk
    ∧ ∃ c, dictLookup ((ask_question r l "" sid now m).2).sessions sid
        = some ⟨(get_session_history sid now m).1
              ++ [⟨.human, ""⟩,
                  ⟨.ai, chunkConcat (ask_question r l "" sid now m).1⟩], c, now⟩ :=
  ⟨ask_question_events_eq r l "" sid now m, ask_question_lookup_self r l "" sid now m⟩

/-- C6: after two successful asks on a fresh session id, the session history
holds exactly four turns in order — human(q1), assistant(a1), human(q2),
assistant(a2) — where each assistant turn is the concatenation of the chunks
of that ask (so each answer is appended only once its stream is complete,
after its question turn). -/
theorem c6_history_replay (r : String → List Document) (l : Prompt → List String)
    (q1 q2 sid : String) (t1 t2 : Int) (m : SessionManager)
    (hfresh : dictContains m.sessions sid = false)
    (h12 : t1 ≤ t2) (hwin : t2 - t1 ≤ session_timeout) :
    historyOf (ask_question r l q2 sid t2 (ask_question r l q1 sid t1 m).2).2 sid
      = some [⟨.human, q1⟩, ⟨.ai, chunkConcat (ask_question r l q1 sid t1 m).1⟩,
              ⟨.human, q2⟩,
              ⟨.ai, chunkConcat (ask_question r l q2 sid t2
                      (ask_question r l q1 sid t1 m).2).1⟩] := by
  obtain ⟨c1, hc1⟩ := ask_question_lookup_self r l q1 sid t1 m
  rw [get_session_history_fresh sid t1 m hfresh] at hc1
  simp only [List.nil_append] at hc1
  obtain ⟨c2, hc2⟩ := ask_question_lookup_self r l q2 sid t2 (ask_question r l q1 sid t1 m).2
  rw [get_session_history_live sid t2 _ _ hc1 (by simpa using hwin)] at hc2
  unfold historyOf
  rw [hc2]
  rfl

/-- C6 witness: the replay theorem applied at a concrete retriever, model,
questions and times on the empty store. -/
theorem c6_witness :
    historyOf (ask_question (fun _ => []) (fun _ => ["a"]) "q2" "s" 5
        (ask_question (fun _ => []) (fun _ => ["a"]) "q1" "s" 0 ⟨[]⟩).2).2 "s"
      = some [⟨.human, "q1"⟩,
              ⟨.ai, chunkConcat (ask_question (fun _ => []) (fun _ => ["a"]) "q1" "s" 0 ⟨[]⟩).1⟩,
              ⟨.human, "q2"⟩,
              ⟨.ai, chunkConcat (ask_question (fun _ => []) (fun _ => ["a"]) "q2" "s" 5
                      (ask_question (fun _ => []) (fun _ => ["a"]) "q1" "s" 0 ⟨[]⟩).2).1⟩] :=
  c6_history_replay (fun _ => []) (fun _ => ["a"]) "q1" "q2" "s" 0 5 ⟨[]⟩
    (by decide) (by decide) (by decide)

/-- C7: when the underlying event stream fails after yielding any prefix of
events, `ask_question` yields the events already produced from that prefix
followed by exactly one further event — a string chunk carrying the
human-readable error message — and the stream then terminates normally (the
result is a well-formed, possibly short, event list; no exception crosses the
ask boundary). -/
theorem c7_failure_yields_single_error_event (evs : List RawEvent) (msg : String) :
    ask_question_events (evs, some msg)
      = processEvents evs ++ [AskEvent.chunk ("Error processing question: " ++ msg)]
    ∧ (ask_question_events (evs, some msg)).length = (processEvents evs).length + 1
    ∧ (ask_question_events (evs, some msg)).getLast?
        = some (AskEvent.chunk ("Error processing question: " ++ msg)) := by
  refine ⟨rfl, ?_, ?_⟩
  · simp [ask_question_events]
  · simp only [ask_question_events]
    exact List.getLast?_concat _

/-- C8: when an optional retrieval stage fails to initialize,
`create_retriever` logs a warning and returns the retriever built from the
prior stage's output instead of raising: a reranker failure leaves the base
(or chain-filter-wrapped) retriever, a chain-filter failure leaves the
reranker-wrapped retriever, and asking through the degraded retriever still
yields exactly one retrieved-context event. -/
theorem c8_optional_stage_degradation (useCF cfOk : Bool)
    (search : String → Nat → List Document)
    (applyComp : Compressor → List Document → List Document)
    (l : Prompt → List String) (q sid : String) (now : Int) (m : SessionManager) :
    create_retriever true useCF true false cfOk
      = .ok ((if useCF && cfOk then .compression .chainFilter (.vectorstore TOP_K)
              else .vectorstore TOP_K),
             "Warning: Reranker initialization failed"
               :: (if useCF && !cfOk then ["Warning: Chain filter initialization failed"]
                   else []))
    ∧ create_retriever true true true true false
        = .ok (.compression .reranker (.vectorstore TOP_K),
               ["Warning: Chain filter initialization failed"])
    ∧ (ask_question
          (runRetriever search applyComp
            (if useCF && cfOk then .compression .chainFilter (.vectorstore TOP_K)
             else .vectorstore TOP_K))
          l q sid now m).1.countP AskEvent.isDocs = 1 := by
  refine ⟨?_, rfl, ?_⟩
  · cases useCF <;> cases cfOk <;> rfl
  · rw [ask_question_events_eq]
    exact countP_isDocs_docs_chunks _ _

end PlantChatBot
